import Mathlib

/-
Shallow embedding of the hoyolab-rss-feeds core:
  * `src/hoyolabrssfeeds/models.py` — the enumerations `FeedItemCategory` and
    `Game` with their `from_str` parsers, the pydantic `FeedItem` model
    (whose `MyBaseModel.Config` sets `anystr_strip_whitespace = True` and
    `min_anystr_length = 1`), and the static normalizer
    `FeedItem._html_to_plaintext` together with the `summary` pre-validator.
  * `src/hoyolabrssfeeds/__main__.py` — the aggregation step of
    `create_feeds`: extend all per-game item lists into one list, then
    `all_items.sort(key=lambda item: item.id, reverse=True)` (a stable sort).

Strings are modelled as `List Char`.  Each `re.sub`/`str.replace` call of the
normalizer is one scanner: at every position the leftmost match is attempted;
on a match the replacement is emitted and scanning resumes after the match,
otherwise one character is copied.  The scanners reproduce the backtracking
semantics of the concrete patterns (greedy `[^>]*` tried longest-first, lazy
`(.*?)` shortest-first).  Character classes (`\s`, `str.strip`, `str.upper`)
are modelled on their ASCII parts, which is exact for ASCII input.
-/

/-- The characters matched by `\s` (ASCII part), also used by `str.strip()`. -/
def isPySpace (c : Char) : Bool :=
  c == ' ' || c == '\t' || c == '\n' || c == '\r' || c == '\x0b' || c == '\x0c'

/-- `[ \t]` — the class of the horizontal-whitespace collapsing step. -/
def isSpTab (c : Char) : Bool :=
  c == ' ' || c == '\t'

/-- Python `str.strip()` on ASCII whitespace: drop leading and trailing runs. -/
def pyStrip (s : List Char) : List Char :=
  (((s.dropWhile isPySpace).reverse).dropWhile isPySpace).reverse

/-- All characters of the list are whitespace. -/
def AllWs (l : List Char) : Prop := ∀ c ∈ l, isPySpace c = true

instance (l : List Char) : Decidable (AllWs l) := by
  unfold AllWs
  infer_instance

/-- Python `str.upper()` on ASCII input (`Char.toUpper` is ASCII-only). -/
def pyUpper (s : String) : String :=
  String.mk (s.data.map Char.toUpper)

/-- Python `str.strip()` lifted to `String`. -/
def pyStripStr (s : String) : String :=
  String.mk (pyStrip s.data)

-- --- ENUMS (models.py) ---

/-- `FeedItemCategory(IntEnum)`: NOTICES = 1, EVENTS = 2, INFO = 3. -/
inductive FeedItemCategory
  | NOTICES
  | EVENTS
  | INFO
deriving DecidableEq, Repr

/-- The integer value backing each `FeedItemCategory` member. -/
def FeedItemCategory.val : FeedItemCategory → Nat
  | .NOTICES => 1
  | .EVENTS => 2
  | .INFO => 3

/-- The member name, as used by the `cls[...]` lookup in `from_str`. -/
def FeedItemCategory.name : FeedItemCategory → String
  | .NOTICES => "NOTICES"
  | .EVENTS => "EVENTS"
  | .INFO => "INFO"

/-- `FeedItemCategory.from_str`: `cls[category_str.upper()]`, turning a
failed name lookup into `ValueError('Unknown category "{}"!')`. -/
def FeedItemCategory.from_str (s : String) : Except String FeedItemCategory :=
  if pyUpper s = "NOTICES" then Except.ok FeedItemCategory.NOTICES
  else if pyUpper s = "EVENTS" then Except.ok FeedItemCategory.EVENTS
  else if pyUpper s = "INFO" then Except.ok FeedItemCategory.INFO
  else Except.error ("Unknown category \"" ++ s ++ "\"!")

/-- `Game(IntEnum)` with its sparse integer codes. -/
inductive Game
  | HONKAI
  | GENSHIN
  | THEMIS
  | STARRAIL
  | ZENLESS
  | NEXUS
deriving DecidableEq, Repr

/-- The integer value backing each `Game` member (3, 5, 7 unused). -/
def Game.val : Game → Nat
  | .HONKAI => 1
  | .GENSHIN => 2
  | .THEMIS => 4
  | .STARRAIL => 6
  | .ZENLESS => 8
  | .NEXUS => 9

/-- The member name, as used by the `cls[...]` lookup in `from_str`. -/
def Game.name : Game → String
  | .HONKAI => "HONKAI"
  | .GENSHIN => "GENSHIN"
  | .THEMIS => "THEMIS"
  | .STARRAIL => "STARRAIL"
  | .ZENLESS => "ZENLESS"
  | .NEXUS => "NEXUS"

/-- `Game.from_str`: `cls[game_str.upper()]`, turning a failed name lookup
into `ValueError('Unknown game "{}"!')`. -/
def Game.from_str (s : String) : Except String Game :=
  if pyUpper s = "HONKAI" then Except.ok Game.HONKAI
  else if pyUpper s = "GENSHIN" then Except.ok Game.GENSHIN
  else if pyUpper s = "THEMIS" then Except.ok Game.THEMIS
  else if pyUpper s = "STARRAIL" then Except.ok Game.STARRAIL
  else if pyUpper s = "ZENLESS" then Except.ok Game.ZENLESS
  else if pyUpper s = "NEXUS" then Except.ok Game.NEXUS
  else Except.error ("Unknown game \"" ++ s ++ "\"!")

-- --- SUBSTITUTION ENGINE ---

/-- One left-to-right substitution pass, as `re.sub`/`str.replace` perform it:
at each position try `f` on the remaining input; on `some (repl, rest)` emit
`repl` and continue on `rest`, otherwise copy one character.  `fuel` bounds
the number of steps; every matcher below consumes at least one character, so
`fuel = s.length` never runs out. -/
def scanWith (f : List Char → Option (List Char × List Char)) :
    Nat → List Char → List Char
  | _, [] => []
  | 0, s => s
  | fuel + 1, c :: t =>
    match f (c :: t) with
    | some (repl, rest) => repl ++ scanWith f fuel rest
    | none => c :: scanWith f fuel t

/-- Run a substitution pass over the whole input. -/
def runSub (f : List Char → Option (List Char × List Char))
    (s : List Char) : List Char :=
  scanWith f s.length s

/-- Matcher for a literal needle (Python `str.replace`). -/
def tryLit (needle repl : List Char) (s : List Char) :
    Option (List Char × List Char) :=
  match needle, s with
  | n :: ns, c :: cs =>
    if n = c ∧ ns.isPrefixOf cs then some (repl, cs.drop ns.length) else none
  | _, _ => none

/-- Python `str.replace(needle, repl)` (for a non-empty needle). -/
def pyReplace (needle repl : List Char) (s : List Char) : List Char :=
  runSub (tryLit needle repl) s

/-- Matchers whose pattern starts with a fixed trigger character. -/
def guarded (trigger : Char)
    (body : List Char → Option (List Char × List Char)) :
    List Char → Option (List Char × List Char)
  | [] => none
  | c :: rest => if c = trigger then body rest else none

/-- Case-insensitive literal match (`(?i)`); returns the rest on success. -/
def matchCi : List Char → List Char → Option (List Char)
  | [], s => some s
  | _ :: _, [] => none
  | p :: ps, c :: cs => if p.toLower = c.toLower then matchCi ps cs else none

-- Stage `re.sub(r"(?is)<br\s*/?>", "\n", txt)`; body sees the input after `<`.
def brBody : List Char → Option (List Char × List Char)
  | b :: r :: t =>
    if (b = 'b' ∨ b = 'B') ∧ (r = 'r' ∨ r = 'R') then
      match t.dropWhile isPySpace with
      | '/' :: '>' :: u => some (['\n'], u)
      | '>' :: u => some (['\n'], u)
      | _ => none
    else none
  | _ => none

def tryBr : List Char → Option (List Char × List Char) := guarded '<' brBody

-- Stage `re.sub(r"(?is)</p\s*>", "\n\n", txt)`.
def pCloseBody : List Char → Option (List Char × List Char)
  | '/' :: p :: t =>
    if p = 'p' ∨ p = 'P' then
      match t.dropWhile isPySpace with
      | '>' :: u => some (['\n', '\n'], u)
      | _ => none
    else none
  | _ => none

def tryPClose : List Char → Option (List Char × List Char) :=
  guarded '<' pCloseBody

-- Stage `re.sub(r"(?is)<p[^>]*>", "", txt)`.
def pOpenBody : List Char → Option (List Char × List Char)
  | p :: t =>
    if p = 'p' ∨ p = 'P' then
      match t.dropWhile (fun c => c != '>') with
      | '>' :: u => some ([], u)
      | _ => none
    else none
  | _ => none

def tryPOpen : List Char → Option (List Char × List Char) :=
  guarded '<' pOpenBody

-- Stage `re.sub(r"(?is)<li[^>]*>\s*", "• ", txt)`.
def liOpenBody : List Char → Option (List Char × List Char)
  | l :: i :: t =>
    if (l = 'l' ∨ l = 'L') ∧ (i = 'i' ∨ i = 'I') then
      match t.dropWhile (fun c => c != '>') with
      | '>' :: u => some (['•', ' '], u.dropWhile isPySpace)
      | _ => none
    else none
  | _ => none

def tryLiOpen : List Char → Option (List Char × List Char) :=
  guarded '<' liOpenBody

-- Stage `re.sub(r"(?is)</li\s*>", "\n", txt)`.
def liCloseBody : List Char → Option (List Char × List Char)
  | '/' :: l :: i :: t =>
    if (l = 'l' ∨ l = 'L') ∧ (i = 'i' ∨ i = 'I') then
      match t.dropWhile isPySpace with
      | '>' :: u => some (['\n'], u)
      | _ => none
    else none
  | _ => none

def tryLiClose : List Char → Option (List Char × List Char) :=
  guarded '<' liCloseBody

-- Stage `re.sub(r"(?is)</?(ul|ol)[^>]*>", "", txt)`.
def ulOlCore : List Char → Option (List Char × List Char)
  | a :: b :: t =>
    if (a = 'u' ∨ a = 'U' ∨ a = 'o' ∨ a = 'O') ∧ (b = 'l' ∨ b = 'L') then
      match t.dropWhile (fun c => c != '>') with
      | '>' :: u => some ([], u)
      | _ => none
    else none
  | _ => none

def ulOlBody : List Char → Option (List Char × List Char)
  | '/' :: t => ulOlCore t
  | t => ulOlCore t

def tryUlOl : List Char → Option (List Char × List Char) :=
  guarded '<' ulOlBody

-- Anchor stage `re.sub(r'(?is)<a[^>]*href="([^"]+)"[^>]*>(.*?)</a\s*>', _a_sub, txt)`.

/-- `re.sub(r"\s+", " ", inner)` inside `_a_sub`. -/
def collapseWs : List Char → List Char
  | [] => []
  | [c] => if isPySpace c then [' '] else [c]
  | c :: d :: t =>
    if isPySpace c then
      if isPySpace d then collapseWs (d :: t) else ' ' :: collapseWs (d :: t)
    else c :: collapseWs (d :: t)

/-- The `_a_sub` replacement function. -/
def aSub (href inner : List Char) : List Char :=
  let innerS := pyStrip (collapseWs inner)
  let hrefS := pyStrip href
  if innerS ≠ [] ∧ hrefS ≠ [] then
    innerS ++ [' ', '('] ++ hrefS ++ [')']
  else if innerS ≠ [] then innerS
  else hrefS

/-- The closing tag `</a\s*>`; returns the rest after it. -/
def aCloseTag : List Char → Option (List Char)
  | '<' :: '/' :: a :: t =>
    if a = 'a' ∨ a = 'A' then
      match t.dropWhile isPySpace with
      | '>' :: u => some u
      | _ => none
    else none
  | _ => none

/-- The lazy group `(.*?)</a\s*>`: split at the first closing anchor tag. -/
def splitAtAClose : List Char → Option (List Char × List Char)
  | [] => none
  | c :: t =>
    match aCloseTag (c :: t) with
    | some rest => some ([], rest)
    | none =>
      match splitAtAClose t with
      | some (inner, rest) => some (c :: inner, rest)
      | none => none

/-- Attempt `href="([^"]+)"[^>]*>(.*?)</a\s*>` at exactly this position. -/
def anchorAfterHref (r : List Char) :
    Option (List Char × List Char × List Char) :=
  match matchCi ['h', 'r', 'e', 'f', '=', '"'] r with
  | none => none
  | some r2 =>
    let href := r2.takeWhile (fun c => c != '"')
    if href.isEmpty then none
    else
      match r2.dropWhile (fun c => c != '"') with
      | '"' :: r3 =>
        match r3.dropWhile (fun c => c != '>') with
        | '>' :: r4 =>
          match splitAtAClose r4 with
          | some (inner, rest) => some (href, inner, rest)
          | none => none
        | _ => none
      | _ => none

/-- Backtracking over the greedy leading `[^>]*`: the longest prefix is
tried first (`k` counts the characters it consumes), matching the regex
engine's preference. -/
def anchorFindHref (r : List Char) :
    Nat → Option (List Char × List Char × List Char)
  | 0 => anchorAfterHref r
  | k + 1 =>
    match anchorAfterHref (r.drop (k + 1)) with
    | some res => some res
    | none => anchorFindHref r k

def anchorBody : List Char → Option (List Char × List Char)
  | a :: t =>
    if a = 'a' ∨ a = 'A' then
      match anchorFindHref t ((t.takeWhile (fun c => c != '>')).length) with
      | some (href, inner, rest) => some (aSub href inner, rest)
      | none => none
    else none
  | [] => none

def tryAnchor : List Char → Option (List Char × List Char) :=
  guarded '<' anchorBody

-- Image stages.

/-- The `_img_sub` replacement function of the alt/src image pattern. -/
def imgSub (alt src : List Char) : List Char :=
  let a := pyStrip alt
  let s := pyStrip src
  if a ≠ [] ∧ s ≠ [] then
    "[img: ".data ++ a ++ " — ".data ++ s ++ "]".data
  else if s ≠ [] then "[img: ".data ++ s ++ "]".data
  else "[img]".data

/-- Attempt `src="([^"]+)"[^>]*>` at exactly this position. -/
def imgSrcPart (r : List Char) : Option (List Char × List Char) :=
  match matchCi ['s', 'r', 'c', '=', '"'] r with
  | none => none
  | some r2 =>
    let src := r2.takeWhile (fun c => c != '"')
    if src.isEmpty then none
    else
      match r2.dropWhile (fun c => c != '"') with
      | '"' :: r3 =>
        match r3.dropWhile (fun c => c != '>') with
        | '>' :: r4 => some (src, r4)
        | _ => none
      | _ => none

/-- Backtracking over a greedy `[^>]*` before `src="` (longest first). -/
def imgFindSrc (r : List Char) : Nat → Option (List Char × List Char)
  | 0 => imgSrcPart r
  | k + 1 =>
    match imgSrcPart (r.drop (k + 1)) with
    | some res => some res
    | none => imgFindSrc r k

/-- Attempt `alt="([^"]*)"[^>]*src="([^"]+)"[^>]*>` at this position. -/
def imgAltPart (r : List Char) :
    Option (List Char × List Char × List Char) :=
  match matchCi ['a', 'l', 't', '=', '"'] r with
  | none => none
  | some r2 =>
    let alt := r2.takeWhile (fun c => c != '"')
    match r2.dropWhile (fun c => c != '"') with
    | '"' :: r3 =>
      match imgFindSrc r3 ((r3.takeWhile (fun c => c != '>')).length) with
      | some (src, rest) => some (alt, src, rest)
      | none => none
    | _ => none

/-- Backtracking over the greedy `[^>]*` before `alt="` (longest first). -/
def imgFindAlt (r : List Char) :
    Nat → Option (List Char × List Char × List Char)
  | 0 => imgAltPart r
  | k + 1 =>
    match imgAltPart (r.drop (k + 1)) with
    | some res => some res
    | none => imgFindAlt r k

-- Stage `re.sub(r'(?is)<img[^>]*alt="([^"]*)"[^>]*src="([^"]+)"[^>]*>', _img_sub, txt)`.
def imgAltSrcBody : List Char → Option (List Char × List Char)
  | i :: m :: g :: t =>
    if (i = 'i' ∨ i = 'I') ∧ (m = 'm' ∨ m = 'M') ∧ (g = 'g' ∨ g = 'G') then
      match imgFindAlt t ((t.takeWhile (fun c => c != '>')).length) with
      | some (alt, src, rest) => some (imgSub alt src, rest)
      | none => none
    else none
  | _ => none

def tryImgAltSrc : List Char → Option (List Char × List Char) :=
  guarded '<' imgAltSrcBody

-- Stage `re.sub(r'(?is)<img[^>]*src="([^"]+)"[^>]*>', lambda m: f"[img: {m.group(1).strip()}]", txt)`.
def imgSrcBody : List Char → Option (List Char × List Char)
  | i :: m :: g :: t =>
    if (i = 'i' ∨ i = 'I') ∧ (m = 'm' ∨ m = 'M') ∧ (g = 'g' ∨ g = 'G') then
      match imgFindSrc t ((t.takeWhile (fun c => c != '>')).length) with
      | some (src, rest) =>
        some ("[img: ".data ++ pyStrip src ++ "]".data, rest)
      | none => none
    else none
  | _ => none

def tryImgSrc : List Char → Option (List Char × List Char) :=
  guarded '<' imgSrcBody

-- Stage `re.sub(r"(?is)<[^>]+>", "", txt)`.
def tagBody : List Char → Option (List Char × List Char)
  | c :: t =>
    if c = '>' then none
    else
      match t.dropWhile (fun x => x != '>') with
      | '>' :: u => some ([], u)
      | _ => none
  | [] => none

def tryTag : List Char → Option (List Char × List Char) := guarded '<' tagBody

-- Stage `re.sub(r"\r\n|\r", "\n", txt)`.
def crBody : List Char → Option (List Char × List Char)
  | d :: u => if d = '\n' then some (['\n'], u) else some (['\n'], d :: u)
  | [] => some (['\n'], [])

def tryCr : List Char → Option (List Char × List Char) := guarded '\r' crBody

-- Stage `re.sub(r"\n{3,}", "\n\n", txt)`.
def nl3Body : List Char → Option (List Char × List Char)
  | d :: e :: rest =>
    if d = '\n' ∧ e = '\n' then
      some (['\n', '\n'], (d :: e :: rest).dropWhile (fun c => c == '\n'))
    else none
  | _ => none

def tryNl3 : List Char → Option (List Char × List Char) :=
  guarded '\n' nl3Body

-- Stage `re.sub(r"[ \t]{2,}", " ", txt)`.
def trySpTab : List Char → Option (List Char × List Char)
  | c :: d :: u =>
    if isSpTab c && isSpTab d then some ([' '], (d :: u).dropWhile isSpTab)
    else none
  | _ => none

/-- The whole body of `FeedItem._html_to_plaintext`, stage by stage in the
source's order. -/
def htmlToPlainChars (s0 : List Char) : List Char :=
  let s1 := pyReplace "&nbsp;".data " ".data s0
  let s2 := pyReplace "&amp;".data "&".data s1
  let s3 := pyReplace "&lt;".data "<".data s2
  let s4 := pyReplace "&gt;".data ">".data s3
  let s5 := runSub tryBr s4
  let s6 := runSub tryPClose s5
  let s7 := runSub tryPOpen s6
  let s8 := runSub tryLiOpen s7
  let s9 := runSub tryLiClose s8
  let s10 := runSub tryUlOl s9
  let s11 := runSub tryAnchor s10
  let s12 := runSub tryImgAltSrc s11
  let s13 := runSub tryImgSrc s12
  let s14 := runSub tryTag s13
  let s15 := runSub tryCr s14
  let s16 := runSub tryNl3 s15
  let s17 := runSub trySpTab s16
  pyStrip s17

-- --- PYDANTIC MODELS (models.py) ---

/-- `FeedItem(MyBaseModel)`.  `datetime` fields are modelled as integer
timestamps and `HttpUrl` fields as strings; neither is touched by any
claim.  Construction-time validation lives in `FeedItem.build` below. -/
structure FeedItem where
  id : Int
  title : String
  author : String
  content : String
  category : FeedItemCategory
  published : Int
  updated : Option Int := none
  image : Option String := none
  summary : Option String := none
  game : Option Game := none
deriving DecidableEq, Repr

/-- `FeedItem._html_to_plaintext` on `Optional[str]`. -/
def FeedItem.html_to_plaintext : Option String → Option String
  | none => none
  | some t => some (String.mk (htmlToPlainChars t.data))

/-- The `content_plaintext` convenience method:
`self._html_to_plaintext(self.content) or ""`. -/
def FeedItem.content_plaintext (it : FeedItem) : String :=
  String.mk (htmlToPlainChars it.content.data)

/-- Raw field values handed to the pydantic constructor. -/
structure RawFeedItem where
  id : Int
  title : String
  author : String
  content : String
  category : FeedItemCategory
  published : Int
  updated : Option Int := none
  image : Option String := none
  summary : Option String := none
  game : Option Game := none

/-- The string validation `MyBaseModel.Config` imposes on every `str`
field: `anystr_strip_whitespace = True` then `min_anystr_length = 1`.
The error mirrors pydantic's message and names the offending field. -/
def validateStr (field : String) (v : String) : Except String String :=
  let t := pyStripStr v
  if t = "" then
    Except.error (field ++ ": ensure this value has at least 1 characters")
  else Except.ok t

/-- The same validation on an `Optional[str]` field (`None` passes). -/
def validateOptStr (field : String) : Option String → Except String (Option String)
  | none => Except.ok none
  | some v => (validateStr field v).map some

/-- Constructing a `FeedItem`: the `_summary_to_plaintext` pre-validator
runs `_html_to_plaintext` on the raw summary before the standard string
validation; `content` receives only the standard validation (so it is
stripped of surrounding whitespace but its markup is kept untouched). -/
def FeedItem.build (raw : RawFeedItem) : Except String FeedItem :=
  match validateStr "title" raw.title with
  | Except.error e => Except.error e
  | Except.ok title =>
    match validateStr "author" raw.author with
    | Except.error e => Except.error e
    | Except.ok author =>
      match validateStr "content" raw.content with
      | Except.error e => Except.error e
      | Except.ok content =>
        match validateOptStr "summary" (FeedItem.html_to_plaintext raw.summary) with
        | Except.error e => Except.error e
        | Except.ok summary =>
          Except.ok
            { id := raw.id, title := title, author := author,
              content := content, category := raw.category,
              published := raw.published, updated := raw.updated,
              image := raw.image, summary := summary, game := raw.game }

-- --- AGGREGATION (create_feeds in __main__.py) ---

/-- Items are compared by `key=lambda item: item.id` with `reverse=True`:
the sort keeps `a` before `b` exactly when `b.id ≤ a.id`. -/
def aggRel (a b : FeedItem) : Prop := b.id ≤ a.id

instance : DecidableRel aggRel := fun a b => Int.decLe b.id a.id

instance : IsTotal FeedItem aggRel := ⟨fun a b => Int.le_total b.id a.id⟩

instance : IsTrans FeedItem aggRel :=
  ⟨fun _ _ _ hab hbc => le_trans hbc hab⟩

/-- The aggregate-mode merge of `create_feeds`: extend all per-source item
lists into one list (the `for gf ... all_items.extend(items)` loop), then
`all_items.sort(key=lambda item: item.id, reverse=True)`.  Python's sort is
stable, and a stable sort under a total preorder is extensionally unique,
so the stable `List.insertionSort` computes exactly the same list. -/
def aggregate (lists : List (List FeedItem)) : List FeedItem :=
  List.insertionSort aggRel (lists.foldl (fun acc l => acc ++ l) [])

-- Concrete inputs used by counterexamples and witnesses.

/-- An item whose only distinguishing field is its id. -/
def mkItem (n : Int) : FeedItem :=
  { id := n, title := "t", author := "a", content := "c",
    category := FeedItemCategory.NOTICES, published := 0 }

/-- Tie-breaking witnesses: same id, distinguishable titles. -/
def tieA : FeedItem :=
  { id := 7, title := "first", author := "a", content := "c",
    category := FeedItemCategory.NOTICES, published := 0 }

def tieB : FeedItem :=
  { id := 7, title := "second", author := "a", content := "c",
    category := FeedItemCategory.NOTICES, published := 0 }

/-- Raw input whose `content` carries surrounding whitespace. -/
def rawPadded : RawFeedItem :=
  { id := 1, title := "t", author := "a", content := " <p>c</p> ",
    category := FeedItemCategory.NOTICES, published := 0 }

/-- The item `FeedItem.build rawPadded` constructs. -/
def itemPadded : FeedItem :=
  { id := 1, title := "t", author := "a", content := "<p>c</p>",
    category := FeedItemCategory.NOTICES, published := 0 }

-- --- HELPER LEMMAS ---

/-- A substitution pass preserves a character invariant as soon as every
match found on invariant input produces invariant replacement and rest. -/
theorem scanWith_preserve (p : Char → Bool)
    (f : List Char → Option (List Char × List Char))
    (hf : ∀ t, (∀ c ∈ t, p c = true) → ∀ pr, f t = some pr →
      (∀ c ∈ pr.1, p c = true) ∧ (∀ c ∈ pr.2, p c = true)) :
    ∀ fuel s, (∀ c ∈ s, p c = true) → ∀ c ∈ scanWith f fuel s, p c = true := by
  intro fuel
  induction fuel with
  | zero =>
    intro s hs
    cases s with
    | nil => intro c hc; cases hc
    | cons a t => simpa [scanWith] using hs
  | succ n ih =>
    intro s hs
    cases s with
    | nil => intro c hc; cases hc
    | cons a t =>
      cases hft : f (a :: t) with
      | none =>
        simp only [scanWith, hft]
        intro c hc
        rcases List.mem_cons.mp hc with h | h
        · exact h ▸ hs a (List.mem_cons_self a t)
        · exact ih t (fun d hd => hs d (List.mem_cons_of_mem a hd)) c h
      | some pr =>
        simp only [scanWith, hft]
        obtain ⟨h1, h2⟩ := hf (a :: t) hs pr hft
        intro c hc
        rcases List.mem_append.mp hc with h | h
        · exact h1 c h
        · exact ih pr.2 h2 c h

/-- Build the hypothesis of `scanWith_preserve` from a matcher that never
fires on invariant input. -/
theorem matcher_none_preserve (p : Char → Bool)
    (f : List Char → Option (List Char × List Char))
    (h : ∀ t, (∀ c ∈ t, p c = true) → f t = none) :
    ∀ t, (∀ c ∈ t, p c = true) → ∀ pr, f t = some pr →
      (∀ c ∈ pr.1, p c = true) ∧ (∀ c ∈ pr.2, p c = true) := by
  intro t ht pr hpr
  rw [h t ht] at hpr
  cases hpr

/-- A literal matcher whose needle starts with a non-whitespace character
never fires on all-whitespace input. -/
theorem tryLit_none_of_ws (needle repl : List Char) (n0 : Char)
    (hn : needle.head? = some n0) (h0 : isPySpace n0 = false) :
    ∀ t, AllWs t → tryLit needle repl t = none := by
  intro t ht
  cases needle with
  | nil => cases hn
  | cons n ns =>
    have hn0 : n = n0 := by simpa using hn
    cases t with
    | nil => rfl
    | cons c cs =>
      have hc : isPySpace c = true := ht c (List.mem_cons_self c cs)
      simp only [tryLit]
      rw [if_neg]
      intro hand
      rw [← hand.1, hn0] at hc
      rw [h0] at hc
      cases hc

/-- A guarded matcher whose trigger is not whitespace never fires on
all-whitespace input. -/
theorem guarded_none_of_ws (tr : Char)
    (body : List Char → Option (List Char × List Char))
    (h0 : isPySpace tr = false) :
    ∀ t, AllWs t → guarded tr body t = none := by
  intro t ht
  cases t with
  | nil => rfl
  | cons c cs =>
    have hc : isPySpace c = true := ht c (List.mem_cons_self c cs)
    simp only [guarded]
    rw [if_neg]
    intro he
    rw [he] at hc
    rw [hc] at h0
    cases h0

/-- All-whitespace is inherited by sublists. -/
theorem allWs_of_sublist {l m : List Char} (h : l.Sublist m) (hm : AllWs m) :
    AllWs l :=
  fun c hc => hm c (h.subset hc)

/-- `pyReplace` with an entity needle keeps all-whitespace input
all-whitespace (it never fires). -/
theorem allWs_pyReplace (needle repl : List Char) (n0 : Char)
    (hn : needle.head? = some n0) (h0 : isPySpace n0 = false)
    (s : List Char) (hs : AllWs s) : AllWs (pyReplace needle repl s) :=
  scanWith_preserve isPySpace (tryLit needle repl)
    (matcher_none_preserve isPySpace (tryLit needle repl)
      (tryLit_none_of_ws needle repl n0 hn h0))
    s.length s hs

/-- A `<`- (or any non-whitespace-) guarded stage keeps all-whitespace
input all-whitespace. -/
theorem allWs_runSub_guard (tr : Char)
    (body : List Char → Option (List Char × List Char))
    (h0 : isPySpace tr = false) (s : List Char) (hs : AllWs s) :
    AllWs (runSub (guarded tr body) s) :=
  scanWith_preserve isPySpace (guarded tr body)
    (matcher_none_preserve isPySpace (guarded tr body)
      (guarded_none_of_ws tr body h0))
    s.length s hs

/-- The `\r` stage keeps all-whitespace input all-whitespace. -/
theorem allWs_runSub_cr (s : List Char) (hs : AllWs s) :
    AllWs (runSub tryCr s) := by
  refine scanWith_preserve isPySpace tryCr ?_ s.length s hs
  intro t ht pr hpr
  cases t with
  | nil => cases hpr
  | cons c cs =>
    simp only [tryCr, guarded] at hpr
    by_cases hc : c = '\r'
    · rw [if_pos hc] at hpr
      cases cs with
      | nil =>
        simp only [crBody] at hpr
        cases hpr
        constructor
        · intro x hx; rcases List.mem_singleton.mp hx with h; rw [h]; rfl
        · intro x hx; cases hx
      | cons d u =>
        simp only [crBody] at hpr
        by_cases hd : d = '\n'
        · rw [if_pos hd] at hpr
          cases hpr
          constructor
          · intro x hx; rcases List.mem_singleton.mp hx with h; rw [h]; rfl
          · intro x hx
            exact ht x (List.mem_cons_of_mem c (List.mem_cons_of_mem d hx))
        · rw [if_neg hd] at hpr
          cases hpr
          constructor
          · intro x hx; rcases List.mem_singleton.mp hx with h; rw [h]; rfl
          · intro x hx; exact ht x (List.mem_cons_of_mem c hx)
    · rw [if_neg hc] at hpr
      cases hpr

/-- The `\n{3,}` stage keeps all-whitespace input all-whitespace. -/
theorem allWs_runSub_nl3 (s : List Char) (hs : AllWs s) :
    AllWs (runSub tryNl3 s) := by
  refine scanWith_preserve isPySpace tryNl3 ?_ s.length s hs
  intro t ht pr hpr
  cases t with
  | nil => cases hpr
  | cons c cs =>
    simp only [tryNl3, guarded] at hpr
    by_cases hc : c = '\n'
    · rw [if_pos hc] at hpr
      cases cs with
      | nil => cases hpr
      | cons d rest =>
        cases rest with
        | nil => cases hpr
        | cons e rest2 =>
          simp only [nl3Body] at hpr
          by_cases hde : d = '\n' ∧ e = '\n'
          · rw [if_pos hde] at hpr
            cases hpr
            constructor
            · intro x hx
              rcases List.mem_cons.mp hx with h | h
              · rw [h]; rfl
              · rcases List.mem_singleton.mp h with h; rw [h]; rfl
            · intro x hx
              have hsub : ((d :: e :: rest2).dropWhile
                  (fun ch => ch == '\n')).Sublist (d :: e :: rest2) :=
                List.dropWhile_sublist _
              exact ht x (List.mem_cons_of_mem c (hsub.subset hx))
          · rw [if_neg hde] at hpr
            cases hpr
    · rw [if_neg hc] at hpr
      cases hpr

/-- The `[ \t]{2,}` stage keeps all-whitespace input all-whitespace. -/
theorem allWs_runSub_sptab (s : List Char) (hs : AllWs s) :
    AllWs (runSub trySpTab s) := by
  refine scanWith_preserve isPySpace trySpTab ?_ s.length s hs
  intro t ht pr hpr
  cases t with
  | nil => exact Option.noConfusion hpr
  | cons c cs =>
    cases cs with
    | nil => exact Option.noConfusion hpr
    | cons d u =>
      simp only [trySpTab] at hpr
      by_cases hcd : (isSpTab c && isSpTab d) = true
      · rw [if_pos hcd] at hpr
        cases hpr
        constructor
        · intro x hx; rcases List.mem_singleton.mp hx with h; rw [h]; rfl
        · intro x hx
          have hsub : ((d :: u).dropWhile isSpTab).Sublist (d :: u) :=
            List.dropWhile_sublist _
          exact ht x (List.mem_cons_of_mem c (hsub.subset hx))
      · rw [if_neg hcd] at hpr
        cases hpr

/-- Stripping an all-whitespace list yields the empty list. -/
theorem pyStrip_of_allWs (l : List Char) (hl : AllWs l) : pyStrip l = [] := by
  unfold pyStrip
  have h1 : l.dropWhile isPySpace = [] := by
    rw [List.dropWhile_eq_nil_iff]
    exact fun c hc => hl c hc
  rw [h1]
  rfl

/-- The whole normalizer maps all-whitespace input to the empty string. -/
theorem htmlToPlainChars_of_allWs (s : List Char) (hs : AllWs s) :
    htmlToPlainChars s = [] := by
  unfold htmlToPlainChars
  have h1 := allWs_pyReplace "&nbsp;".data " ".data '&' rfl rfl s hs
  have h2 := allWs_pyReplace "&amp;".data "&".data '&' rfl rfl _ h1
  have h3 := allWs_pyReplace "&lt;".data "<".data '&' rfl rfl _ h2
  have h4 := allWs_pyReplace "&gt;".data ">".data '&' rfl rfl _ h3
  have h5 := allWs_runSub_guard '<' brBody rfl _ h4
  have h6 := allWs_runSub_guard '<' pCloseBody rfl _ h5
  have h7 := allWs_runSub_guard '<' pOpenBody rfl _ h6
  have h8 := allWs_runSub_guard '<' liOpenBody rfl _ h7
  have h9 := allWs_runSub_guard '<' liCloseBody rfl _ h8
  have h10 := allWs_runSub_guard '<' ulOlBody rfl _ h9
  have h11 := allWs_runSub_guard '<' anchorBody rfl _ h10
  have h12 := allWs_runSub_guard '<' imgAltSrcBody rfl _ h11
  have h13 := allWs_runSub_guard '<' imgSrcBody rfl _ h12
  have h14 := allWs_runSub_guard '<' tagBody rfl _ h13
  have h15 := allWs_runSub_cr _ h14
  have h16 := allWs_runSub_nl3 _ h15
  have h17 := allWs_runSub_sptab _ h16
  exact pyStrip_of_allWs _ h17

/-- `dropWhile` is idempotent. -/
theorem dropWhile_idem (p : Char → Bool) (l : List Char) :
    (l.dropWhile p).dropWhile p = l.dropWhile p := by
  induction l with
  | nil => rfl
  | cons c t ih =>
    by_cases h : p c = true
    · rw [List.dropWhile_cons, if_pos h, ih]
    · rw [List.dropWhile_cons, if_neg h, List.dropWhile_cons, if_neg h]

/-- The head of a `dropWhile` result does not satisfy the predicate. -/
theorem dropWhile_head_false (p : Char → Bool) :
    ∀ (l : List Char) x r, l.dropWhile p = x :: r → p x = false := by
  intro l
  induction l with
  | nil => intro x r h; cases h
  | cons c t ih =>
    intro x r h
    by_cases hc : p c = true
    · rw [List.dropWhile_cons, if_pos hc] at h
      exact ih x r h
    · rw [List.dropWhile_cons, if_neg hc] at h
      cases h
      simpa using hc

/-- Python's `strip` is idempotent. -/
theorem pyStrip_idem (l : List Char) : pyStrip (pyStrip l) = pyStrip l := by
  unfold pyStrip
  generalize hA : l.dropWhile isPySpace = A
  cases hBr : (A.reverse.dropWhile isPySpace).reverse with
  | nil => rfl
  | cons x xs =>
    have hBeq : A.reverse.dropWhile isPySpace = (x :: xs).reverse := by
      rw [← hBr, List.reverse_reverse]
    have hsplit : A.reverse.takeWhile isPySpace ++ A.reverse.dropWhile isPySpace
        = A.reverse := List.takeWhile_append_dropWhile isPySpace A.reverse
    have hAeq : A = x :: (xs ++ (A.reverse.takeWhile isPySpace).reverse) := by
      have h2 := congrArg List.reverse hsplit
      rw [List.reverse_append, List.reverse_reverse, hBeq,
        List.reverse_reverse] at h2
      simpa using h2.symm
    have hx : isPySpace x = false :=
      dropWhile_head_false isPySpace l x _ (by rw [hA, hAeq])
    have ha : (x :: xs).dropWhile isPySpace = x :: xs := by
      rw [List.dropWhile_cons, if_neg]
      simp [hx]
    have hb : (x :: xs).reverse.dropWhile isPySpace = (x :: xs).reverse := by
      rw [← hBr, List.reverse_reverse, dropWhile_idem]
    rw [ha, hb, List.reverse_reverse]

/-- The normalizer's output is already stripped. -/
theorem htmlToPlainChars_stripped (d : List Char) :
    pyStrip (htmlToPlainChars d) = htmlToPlainChars d := by
  simp only [htmlToPlainChars]
  exact pyStrip_idem _

/-- `pyStripStr` is idempotent. -/
theorem pyStripStr_idem (s : String) : pyStripStr (pyStripStr s) = pyStripStr s := by
  unfold pyStripStr
  exact congrArg String.mk (pyStrip_idem s.data)

-- --- CLAIM C4 ---

/-- C4.  `_html_to_plaintext(None)` is `None`, and an input that is empty
or consists of whitespace only normalizes to the empty string. -/
theorem html_to_plaintext_none_and_blank :
    FeedItem.html_to_plaintext none = none
    ∧ FeedItem.html_to_plaintext (some "") = some ""
    ∧ ∀ s : String, AllWs s.data →
        FeedItem.html_to_plaintext (some s) = some "" := by
  refine ⟨rfl, rfl, ?_⟩
  intro s hs
  show some (String.mk (htmlToPlainChars s.data)) = some ""
  rw [htmlToPlainChars_of_allWs s.data hs]

/-- Witness for C4 at the whitespace-only input `" \t\n "`. -/
theorem html_to_plaintext_none_and_blank_witness :
    FeedItem.html_to_plaintext (some " \t\n ") = some "" :=
  html_to_plaintext_none_and_blank.2.2 " \t\n " (by decide)

-- --- CLAIM C1 ---

/-- C1 counterexample.  The code performs no punctuation-spacing repair:
`normalize("Destiny.After")` is not `"Destiny. After"`. -/
theorem no_punctuation_spacing_counterexample :
    FeedItem.html_to_plaintext (some "Destiny.After") ≠ some "Destiny. After" := by
  decide

/-- C1 amended.  A sentence-ending mark immediately followed by a letter
is left untouched by the normalizer: `"Destiny.After"` and `"A:B"` come
back unchanged. -/
theorem no_punctuation_spacing :
    FeedItem.html_to_plaintext (some "Destiny.After") = some "Destiny.After"
    ∧ FeedItem.html_to_plaintext (some "A:B") = some "A:B" := by
  constructor <;> decide

-- --- CLAIM C5 ---

/-- C5 counterexample.  A closing paragraph tag produces a blank line even
when no opening paragraph tag follows: `normalize("A</p>B")` is
`"A\n\nB"`, not `"AB"`. -/
theorem pclose_always_breaks_counterexample :
    FeedItem.html_to_plaintext (some "A</p>B") ≠ some "AB"
    ∧ FeedItem.html_to_plaintext (some "A</p>B") = some "A\n\nB" := by
  constructor <;> decide

/-- C5 amended.  Every closing paragraph tag becomes a blank line (whether
or not an opening paragraph tag follows), every opening paragraph tag is
removed without inserting a break, and trailing blank lines are stripped:
`normalize("<p>A</p><p>B</p>") = "A\n\nB"`, `normalize("A</p>B") =
"A\n\nB"`, `normalize("A<p>B") = "AB"`. -/
theorem paragraph_tag_behavior :
    FeedItem.html_to_plaintext (some "<p>A</p><p>B</p>") = some "A\n\nB"
    ∧ FeedItem.html_to_plaintext (some "A</p>B") = some "A\n\nB"
    ∧ FeedItem.html_to_plaintext (some "A<p>B") = some "AB" := by
  refine ⟨?_, ?_, ?_⟩ <;> decide

-- --- CLAIM C6 ---

/-- C6 counterexample.  The code never replaces the glyph bullet `▌`:
`normalize("a▌b")` is not `"a\n• b"`. -/
theorem no_glyph_bullets_counterexample :
    FeedItem.html_to_plaintext (some "a▌b") ≠ some "a\n• b" := by
  decide

/-- C6 amended.  The glyph bullets `▌` and `■` pass through the
normalizer unchanged. -/
theorem glyph_bullets_unchanged :
    FeedItem.html_to_plaintext (some "a▌b") = some "a▌b"
    ∧ FeedItem.html_to_plaintext (some "a■b") = some "a■b" := by
  constructor <;> decide

-- --- CLAIM C9 ---

/-- C9 counterexample.  The normalizer is not idempotent: the first pass
turns `"&amp;nbsp;"` into `"&nbsp;"`, which a second pass decodes to a
space and strips to `""`. -/
theorem normalize_not_idempotent :
    FeedItem.html_to_plaintext (FeedItem.html_to_plaintext (some "&amp;nbsp;"))
      ≠ FeedItem.html_to_plaintext (some "&amp;nbsp;") := by
  decide

/-- C9 amended.  Idempotence fails on inputs whose single-pass output
still contains entity text; on outputs free of such residue a second pass
is the identity, as on these paragraph, line-break and list inputs. -/
theorem normalize_idempotent_on_clean_outputs :
    FeedItem.html_to_plaintext (FeedItem.html_to_plaintext (some "<p>A</p><p>B</p>"))
      = FeedItem.html_to_plaintext (some "<p>A</p><p>B</p>")
    ∧ FeedItem.html_to_plaintext (FeedItem.html_to_plaintext (some "A<br>B"))
      = FeedItem.html_to_plaintext (some "A<br>B")
    ∧ FeedItem.html_to_plaintext
        (FeedItem.html_to_plaintext (some "<ul><li>x</li><li>y</li></ul>"))
      = FeedItem.html_to_plaintext (some "<ul><li>x</li><li>y</li></ul>") := by
  refine ⟨?_, ?_, ?_⟩ <;> decide

-- --- CLAIM C10 ---

/-- C10.  Entity decoding is the four `str.replace` calls in the fixed
order `&nbsp;`, `&amp;`, `&lt;`, `&gt;`: a double-encoded `"&amp;lt;"`
decodes all the way to `<` in one call and the resulting tag is stripped,
while `"&amp;nbsp;"` decodes only to `"&nbsp;"`. -/
theorem entity_decoding_order :
    FeedItem.html_to_plaintext (some "&amp;lt;b&amp;gt;") = some ""
    ∧ FeedItem.html_to_plaintext (some "&amp;nbsp;") = some "&nbsp;" := by
  constructor <;> decide

-- --- AGGREGATION LEMMAS ---

/-- The `extend` loop is concatenation: folding append equals `flatten`. -/
theorem foldl_append_eq_flatten (L : List (List FeedItem)) :
    ∀ acc : List FeedItem,
      L.foldl (fun a l => a ++ l) acc = acc ++ L.flatten := by
  induction L with
  | nil => intro acc; simp
  | cons h t ih =>
    intro acc
    simp only [List.foldl, List.flatten_cons]
    rw [ih (acc ++ h), List.append_assoc]

/-- `aggregate` is the stable sort of the flattened input. -/
theorem aggregate_eq (L : List (List FeedItem)) :
    aggregate L = List.insertionSort aggRel L.flatten := by
  unfold aggregate
  rw [foldl_append_eq_flatten L []]
  rfl

/-- Two members of lists at increasing positions form a pair sublist of
the flattened list of lists. -/
theorem flatten_pair_sublist :
    ∀ (L : List (List FeedItem)) (i j : Nat)
      (hi : i < L.length) (hj : j < L.length), i < j →
      ∀ a b : FeedItem, a ∈ L[i] → b ∈ L[j] →
      ([a, b] : List FeedItem).Sublist L.flatten := by
  intro L
  induction L with
  | nil => intro i j hi; cases hi
  | cons h t ih =>
    intro i j hi hj hij a b ha hb
    rw [List.flatten_cons]
    cases i with
    | zero =>
      cases j with
      | zero => omega
      | succ j' =>
        have hj' : j' < t.length := by simpa using hj
        have hb' : b ∈ t.flatten := by
          rw [List.getElem_cons_succ] at hb
          exact List.mem_flatten.mpr ⟨t[j'], List.getElem_mem hj', hb⟩
        have s1 : ([a] : List FeedItem).Sublist h :=
          List.singleton_sublist.mpr (by simpa using ha)
        have s2 : ([b] : List FeedItem).Sublist t.flatten :=
          List.singleton_sublist.mpr hb'
        exact List.Sublist.append s1 s2
    | succ i' =>
      cases j with
      | zero => omega
      | succ j' =>
        have hi' : i' < t.length := by simpa using hi
        have hj' : j' < t.length := by simpa using hj
        have := ih i' j' hi' hj' (by omega) a b
          (by rw [List.getElem_cons_succ] at ha; exact ha)
          (by rw [List.getElem_cons_succ] at hb; exact hb)
        exact this.trans (List.sublist_append_right h t.flatten)

-- --- CLAIM C2 ---

/-- C2.  Aggregation concatenates the per-source lists and stably sorts by
id descending: the result is a permutation of the concatenation, sorted
descending by id; equal-id pairs keep their concatenation order, so an
item of an earlier source precedes an equal-id item of a later source;
and `aggregate [[id=5],[id=10,id=3]]` has ids `[10, 5, 3]`. -/
theorem aggregate_concat_sort_stable :
    (∀ L : List (List FeedItem), (aggregate L).Perm L.flatten)
    ∧ (∀ L : List (List FeedItem), List.Sorted aggRel (aggregate L))
    ∧ (∀ (L : List (List FeedItem)) (a b : FeedItem), a.id = b.id →
        ([a, b] : List FeedItem).Sublist L.flatten →
        ([a, b] : List FeedItem).Sublist (aggregate L))
    ∧ (∀ (L : List (List FeedItem)) (i j : Nat)
        (hi : i < L.length) (hj : j < L.length), i < j →
        ∀ a b : FeedItem, a ∈ L[i] → b ∈ L[j] → a.id = b.id →
        ([a, b] : List FeedItem).Sublist (aggregate L))
    ∧ (aggregate [[mkItem 5], [mkItem 10, mkItem 3]]).map FeedItem.id
        = [10, 5, 3] := by
  have hstable : ∀ (L : List (List FeedItem)) (a b : FeedItem), a.id = b.id →
      ([a, b] : List FeedItem).Sublist L.flatten →
      ([a, b] : List FeedItem).Sublist (aggregate L) := by
    intro L a b hid hsub
    rw [aggregate_eq]
    exact List.pair_sublist_insertionSort (le_of_eq hid.symm) hsub
  refine ⟨?_, ?_, hstable, ?_, ?_⟩
  · intro L
    rw [aggregate_eq]
    exact List.perm_insertionSort aggRel L.flatten
  · intro L
    rw [aggregate_eq]
    exact List.sorted_insertionSort aggRel L.flatten
  · intro L i j hi hj hij a b ha hb hid
    exact hstable L a b hid (flatten_pair_sublist L i j hi hj hij a b ha hb)
  · decide

/-- Witness for C2: two distinguishable items with equal id, one per
source, keep the source order in the aggregate. -/
theorem aggregate_concat_sort_stable_witness :
    ([tieA, tieB] : List FeedItem).Sublist (aggregate [[tieA], [tieB]]) :=
  aggregate_concat_sort_stable.2.2.2.1 [[tieA], [tieB]] 0 1
    (by decide) (by decide) (by decide) tieA tieB
    (by decide) (by decide) (by decide)

-- --- CLAIM C3 ---

/-- C3.  Aggregating no sources, or only empty sources, yields the empty
sequence. -/
theorem aggregate_empty_ok :
    aggregate [] = []
    ∧ ∀ L : List (List FeedItem), (∀ l ∈ L, l = []) → aggregate L = [] := by
  constructor
  · rfl
  · intro L hL
    rw [aggregate_eq, List.flatten_eq_nil_iff.mpr hL]
    rfl

/-- Witness for C3 at two empty sources. -/
theorem aggregate_empty_ok_witness : aggregate [[], []] = [] :=
  aggregate_empty_ok.2 [[], []] (by decide)

-- --- CLAIM C8 ---

/-- C8.  Enumeration parsing uppercases the raw string and looks it up
among the member names, so it is case-insensitive; `"events"` parses to
`EVENTS`; a string matching no name yields the error that names the
enumeration and carries the raw string. -/
theorem from_str_case_insensitive :
    (∀ (s : String) (c : FeedItemCategory),
      FeedItemCategory.from_str s = Except.ok c ↔ pyUpper s = c.name)
    ∧ (∀ (s : String) (g : Game),
      Game.from_str s = Except.ok g ↔ pyUpper s = g.name)
    ∧ FeedItemCategory.from_str "events" = Except.ok FeedItemCategory.EVENTS
    ∧ (∀ s : String, (∀ c : FeedItemCategory, pyUpper s ≠ c.name) →
        FeedItemCategory.from_str s
          = Except.error ("Unknown category \"" ++ s ++ "\"!"))
    ∧ (∀ s : String, (∀ g : Game, pyUpper s ≠ g.name) →
        Game.from_str s = Except.error ("Unknown game \"" ++ s ++ "\"!")) := by
  refine ⟨?_, ?_, rfl, ?_, ?_⟩
  · intro s c
    cases c <;>
      simp only [FeedItemCategory.from_str, FeedItemCategory.name] <;>
      split_ifs <;> simp_all
  · intro s g
    cases g <;>
      simp only [Game.from_str, Game.name] <;>
      split_ifs <;> simp_all
  · intro s h
    unfold FeedItemCategory.from_str
    rw [if_neg (show pyUpper s ≠ "NOTICES" from h FeedItemCategory.NOTICES),
      if_neg (show pyUpper s ≠ "EVENTS" from h FeedItemCategory.EVENTS),
      if_neg (show pyUpper s ≠ "INFO" from h FeedItemCategory.INFO)]
  · intro s h
    unfold Game.from_str
    rw [if_neg (show pyUpper s ≠ "HONKAI" from h Game.HONKAI),
      if_neg (show pyUpper s ≠ "GENSHIN" from h Game.GENSHIN),
      if_neg (show pyUpper s ≠ "THEMIS" from h Game.THEMIS),
      if_neg (show pyUpper s ≠ "STARRAIL" from h Game.STARRAIL),
      if_neg (show pyUpper s ≠ "ZENLESS" from h Game.ZENLESS),
      if_neg (show pyUpper s ≠ "NEXUS" from h Game.NEXUS)]

/-- Witness for C8: `"bogus"` matches no category name and fails with the
error carrying the raw string. -/
theorem from_str_case_insensitive_witness :
    FeedItemCategory.from_str "bogus"
      = Except.error "Unknown category \"bogus\"!" :=
  from_str_case_insensitive.2.2.2.1 "bogus" (fun c => by cases c <;> decide)

-- --- CLAIM C7 ---

/-- Unfolding lemma for `pyStripStr` (definitional). -/
theorem pyStripStr_def (y : String) : pyStripStr y = String.mk (pyStrip y.data) :=
  rfl

/-- The character data of a constructed string (definitional). -/
theorem stringMk_data (l : List Char) : (String.mk l).data = l := rfl

/-- Unfolding lemma for the normalizer on `some` (definitional). -/
theorem html_to_plaintext_some (s : String) :
    FeedItem.html_to_plaintext (some s)
      = some (String.mk (htmlToPlainChars s.data)) := rfl

/-- An `Except` whose `toOption` is `some a` is `ok a`. -/
theorem except_eq_ok_of_toOption {e : Except String FeedItem} {a : FeedItem}
    (h : e.toOption = some a) : e = Except.ok a := by
  cases e with
  | ok b =>
    simp only [Except.toOption] at h
    injection h with h2
    rw [h2]
  | error c => cases h

/-- `validateStr` succeeds exactly with the stripped, non-empty value. -/
theorem validateStr_ok (field v t : String)
    (h : validateStr field v = Except.ok t) :
    t = pyStripStr v ∧ t ≠ "" := by
  simp only [validateStr] at h
  by_cases he : pyStripStr v = ""
  · rw [if_pos he] at h; cases h
  · rw [if_neg he] at h
    injection h with h2
    subst h2
    exact ⟨rfl, he⟩

set_option maxHeartbeats 2000000 in
/-- C7 counterexample.  `content` is not stored verbatim: pydantic's
`anystr_strip_whitespace` trims it, so building from a padded raw content
succeeds with the trimmed value. -/
theorem content_not_verbatim_counterexample :
    FeedItem.build rawPadded = Except.ok itemPadded
    ∧ itemPadded.content ≠ rawPadded.content := by
  constructor
  · exact except_eq_ok_of_toOption (by decide)
  · decide

set_option maxHeartbeats 1600000 in
/-- C7 amended.  A successfully constructed item stores `content` with
surrounding whitespace stripped but otherwise unmodified (markup kept);
`summary` is exactly the normalizer's output on the raw summary;
`title`, `author` and `content` are stored stripped and non-empty. -/
theorem build_strips_and_validates (raw : RawFeedItem) (item : FeedItem)
    (h : FeedItem.build raw = Except.ok item) :
    item.content = pyStripStr raw.content
    ∧ item.summary = FeedItem.html_to_plaintext raw.summary
    ∧ item.title ≠ "" ∧ item.author ≠ "" ∧ item.content ≠ ""
    ∧ pyStripStr item.title = item.title
    ∧ pyStripStr item.author = item.author
    ∧ pyStripStr item.content = item.content := by
  unfold FeedItem.build at h
  cases h1 : validateStr "title" raw.title with
  | error e => rw [h1] at h; cases h
  | ok title =>
    rw [h1] at h
    cases h2 : validateStr "author" raw.author with
    | error e => rw [h2] at h; cases h
    | ok author =>
      rw [h2] at h
      cases h3 : validateStr "content" raw.content with
      | error e => rw [h3] at h; cases h
      | ok content =>
        rw [h3] at h
        cases h4 : validateOptStr "summary" (FeedItem.html_to_plaintext raw.summary) with
        | error e => rw [h4] at h; cases h
        | ok summary =>
          rw [h4] at h
          injection h with h5
          subst h5
          obtain ⟨ht1, ht2⟩ := validateStr_ok "title" raw.title title h1
          obtain ⟨ha1, ha2⟩ := validateStr_ok "author" raw.author author h2
          obtain ⟨hc1, hc2⟩ := validateStr_ok "content" raw.content content h3
          have hsum : summary = FeedItem.html_to_plaintext raw.summary := by
            cases hrs : raw.summary with
            | none =>
              rw [hrs] at h4
              simp only [FeedItem.html_to_plaintext, validateOptStr] at h4
              injection h4 with h6
              exact h6.symm
            | some v =>
              rw [hrs] at h4
              simp only [FeedItem.html_to_plaintext, validateOptStr] at h4
              generalize hw : String.mk (htmlToPlainChars v.data) = w at h4
              cases h7 : validateStr "summary" w with
              | error e => rw [h7] at h4; cases h4
              | ok t =>
                rw [h7] at h4
                simp only [Except.map] at h4
                injection h4 with h8
                obtain ⟨hts, _⟩ := validateStr_ok "summary" w t h7
                have hkeep : pyStripStr w = w := by
                  rw [pyStripStr_def w, ← hw, stringMk_data]
                  exact congrArg String.mk (htmlToPlainChars_stripped (v.data))
                rw [html_to_plaintext_some v, hw, ← h8, hts, hkeep]
          refine ⟨hc1, hsum, ht2, ha2, hc2, ?_, ?_, ?_⟩
          · show pyStripStr title = title
            rw [ht1, pyStripStr_idem]
          · show pyStripStr author = author
            rw [ha1, pyStripStr_idem]
          · show pyStripStr content = content
            rw [hc1, pyStripStr_idem]

set_option maxHeartbeats 2000000 in
/-- Witness for C7 at the padded raw input. -/
theorem build_strips_and_validates_witness :
    itemPadded.content = pyStripStr rawPadded.content
    ∧ itemPadded.summary = FeedItem.html_to_plaintext rawPadded.summary
    ∧ itemPadded.title ≠ "" ∧ itemPadded.author ≠ "" ∧ itemPadded.content ≠ ""
    ∧ pyStripStr itemPadded.title = itemPadded.title
    ∧ pyStripStr itemPadded.author = itemPadded.author
    ∧ pyStripStr itemPadded.content = itemPadded.content :=
  build_strips_and_validates rawPadded itemPadded
    (except_eq_ok_of_toOption (by decide))

